import Mathlib

/-!
# Carousel pagination: a shallow embedding of `src/App.js`

The React component tree of `App.js` is embedded as explicit state passing.

* Page indices and directions are integers (`Int`): the integer-valued
  JavaScript numbers. The increments `currentPage + 1` and `currentPage - 1`
  are exact below `2 ^ 53` in absolute value, which covers every page the
  carousel reaches; the subtraction `newPage - currentPage` of `setPage`, whose
  operands are arbitrary, is rounded as binary64 arithmetic rounds it
  (`binary64Sub`).
* Pixel quantities (`offset.x`, the viewport width, the horizontal offsets of
  the animation targets) and the animation parameters (`scale`, `duration`,
  `delay`, `opacity`) are rationals (`ℚ`): JavaScript numbers without
  `NaN` and the infinities.
* `useState` cells are the fields `currentPage`, `direction` and
  `shouldRenderSibling` of `AppState`; the `useRef` cell of `Slides` is the
  field `hasPaginated`.
* An event handler is a function from the state it closes over to the
  state after it ran; the rendered tree is the value of `render`.
-/

namespace Carousel

/-! ## Constants -/

/-- The page list, `const pages = [0, 1, 2, 3]`. -/
def pages : List Int := [0, 1, 2, 3]

/-- The expression `pages.length`, as an integer. -/
def pagesLength : Int := pages.length

/-- The constant `xOffset = 200`. -/
def xOffset : ℚ := 200

/-- The constant `xOffset2 = 3`. -/
def xOffset2 : ℚ := 3

/-! ## The imported helper `wrap` -/

/-- Modelled from the spec: `wrap` is imported from `@popmotion/popcorn` and
its body is not among the sources. The spec describes it as wrapping an index
into `[min, max)` "via modular arithmetic", with `wrap(0,4,-1) = 3` and
`wrap(0,4,4) = 0`. The definition is the usual double-remainder form
`((v - min) % r + r) % r + min` with `r = max - min`, where `%` is
JavaScript's remainder, which truncates toward zero (`Int.tmod`). -/
def wrap (min max v : Int) : Int :=
  let rangeSize := max - min
  Int.tmod (Int.tmod (v - min) rangeSize + rangeSize) rangeSize + min

/-! ## Pagination controller (`App`) -/

/-- The state of the component tree: the `useState` pair
`[currentPage, direction]`, the `useState` flag `shouldRenderSibling`, and the
`useRef` flag `hasPaginated` owned by `Slides`. -/
structure AppState where
  currentPage : Int
  direction : Int
  shouldRenderSibling : Bool
  hasPaginated : Bool
deriving DecidableEq, Repr

/-- The state at mount: `useState([0, 0])`, `useState(false)`,
`useRef(false)`. -/
def initialState : AppState :=
  { currentPage := 0, direction := 0, shouldRenderSibling := false, hasPaginated := false }

/-- JavaScript truthiness of the optional argument `newDirection`: an omitted
argument is `undefined`, which is falsy, and so is the number `0`. -/
def falsy : Option Int → Bool
  | none => true
  | some d => d == 0

/-- Rounding of a natural number to a 53-bit significand, to nearest with ties
to even, as binary64 arithmetic rounds an exact result: with `e` the number of
binary digits beyond 53, the low `e` bits are dropped and the kept quotient is
incremented when the dropped part exceeds half a unit, or equals it and the
quotient is odd. -/
def roundBinary64Nat (m : Nat) : Nat :=
  let e := Nat.size m - 53
  let q := m / 2 ^ e
  let r := m % 2 ^ e
  let q := if 2 * r > 2 ^ e ∨ (2 * r = 2 ^ e ∧ q % 2 = 1) then q + 1 else q
  q * 2 ^ e

/-- Rounding of an integer to the nearest binary64 number, ties to even; the
rounding is symmetric in the sign. Results of magnitude `2 ^ 1024` and above,
where binary64 overflows to an infinity, are outside the integers and are not
represented. -/
def roundBinary64 (n : Int) : Int :=
  Int.sign n * (roundBinary64Nat n.natAbs : Int)

/-- The JavaScript expression `a - b` on integer-valued numbers: the exact
difference, rounded to binary64. -/
def binary64Sub (a b : Int) : Int :=
  roundBinary64 (a - b)

/-- The function `setPage(newPage, newDirection)` of `App`, closing over
`currentPage`. The result is the pair handed to `setCurrentPage`. -/
def setPage (currentPage : Int) (newPage : Int) (newDirection : Option Int) : Int × Int :=
  let newDirection : Int :=
    if falsy newDirection then binary64Sub newPage currentPage else newDirection.getD 0
  (newPage, newDirection)

/-- The state after `setCurrentPage([p, d])`. -/
def setCurrentPage (s : AppState) (pd : Int × Int) : AppState :=
  { s with currentPage := pd.1, direction := pd.2 }

/-- The function `handleResize`, with `window.visualViewport.width` as its
argument: `setShouldRenderSibling(width > 500)`. -/
def handleResize (s : AppState) (width : ℚ) : AppState :=
  { s with shouldRenderSibling := decide (width > 500) }

/-! ## Rendered tree -/

/-- Props of a `SiblingSlide`. -/
structure SiblingProps where
  currentPage : Int
  direction : Int
  buttonDirection : Int
deriving DecidableEq, Repr

/-- Props of `Slides` (the `setPage` prop is the controller's function). -/
structure SlidesProps where
  currentPage : Int
  direction : Int
deriving DecidableEq, Repr

/-- The children of the flex row that `App` returns: an optional left peek,
the primary slide view, an optional right peek. -/
structure View where
  left : Option SiblingProps
  slides : SlidesProps
  right : Option SiblingProps
deriving DecidableEq, Repr

/-- The `currentPage` prop of the left peek:
`currentPage - 1 < 0 ? pages.length - 1 : currentPage - 1`. -/
def leftPeekPage (currentPage : Int) : Int :=
  if currentPage - 1 < 0 then pagesLength - 1 else currentPage - 1

/-- The `currentPage` prop of the right peek:
`currentPage + 1 >= pages.length ? 0 : currentPage + 1`. -/
def rightPeekPage (currentPage : Int) : Int :=
  if currentPage + 1 ≥ pagesLength then 0 else currentPage + 1

/-- The JSX returned by `App`: each `SiblingSlide` is present only under
`shouldRenderSibling &&`. -/
def render (s : AppState) : View :=
  { left :=
      if s.shouldRenderSibling then
        some { currentPage := leftPeekPage s.currentPage, direction := s.direction,
               buttonDirection := -1 }
      else none
    slides := { currentPage := s.currentPage, direction := s.direction }
    right :=
      if s.shouldRenderSibling then
        some { currentPage := rightPeekPage s.currentPage, direction := s.direction,
               buttonDirection := 1 }
      else none }

/-! ## Primary slide view (`Slides`) -/

/-- The local constant `threshold = xOffset / 2`. -/
def threshold : ℚ := xOffset / 2

/-- The function `detectPaginationGesture(e, { offset })` of `Slides`, closing
over the prop `currentPage` and the ref `hasPaginated`. The result is the new
value of `hasPaginated.current` and the arguments of the call to `setPage`, if
one is made. -/
def detectPaginationGesture (currentPage : Int) (hasPaginated : Bool) (offsetX : ℚ) :
    Bool × Option (Int × Option Int) :=
  if hasPaginated then (hasPaginated, none)
  else
    let newPage : Int :=
      if offsetX < -threshold then currentPage + 1
      else if offsetX > threshold then currentPage - 1
      else currentPage
    if newPage ≠ currentPage then
      (true, some (wrap 0 pagesLength newPage, some (if offsetX < 0 then 1 else -1)))
    else (hasPaginated, none)

/-- The `onDrag` handler of the primary slide: run `detectPaginationGesture`,
store the flag, and perform the `setPage` call it made, if any. -/
def onDrag (s : AppState) (offsetX : ℚ) : AppState :=
  let r := detectPaginationGesture s.currentPage s.hasPaginated offsetX
  let s1 := { s with hasPaginated := r.1 }
  match r.2 with
  | none => s1
  | some (newPage, newDirection) =>
      setCurrentPage s1 (setPage s1.currentPage newPage newDirection)

/-- The `onDragStart` handler: `hasPaginated.current = false`. -/
def onDragStart (s : AppState) : AppState :=
  { s with hasPaginated := false }

/-- The `onDragEnd` handler: `hasPaginated.current = true`. -/
def onDragEnd (s : AppState) : AppState :=
  { s with hasPaginated := true }

/-! ## Sibling peek view (`SiblingSlide`) -/

/-- The function `changePage` of `SiblingSlide`:
`setPage(currentPage, buttonDirection)` on its own props, where `setPage` is
the controller's function (closing over the controller's `currentPage`). -/
def changePage (s : AppState) (props : SiblingProps) : AppState :=
  setCurrentPage s (setPage s.currentPage props.currentPage (some props.buttonDirection))

/-- A click on a peek slot of the rendered tree: `changePage` of the
`SiblingSlide` in that slot; an empty slot has nothing to click. -/
def clickPeek (s : AppState) (slot : Option SiblingProps) : AppState :=
  match slot with
  | none => s
  | some props => changePage s props

/-! ## Events -/

/-- The input events the component tree consumes. -/
inductive Event where
  | dragStart
  | drag (offsetX : ℚ)
  | dragEnd
  | clickLeft
  | clickRight
  | resize (width : ℚ)
deriving DecidableEq, Repr

/-- One event, handled by the handler the rendered tree attaches to it. -/
def step (s : AppState) : Event → AppState
  | .dragStart => onDragStart s
  | .drag offsetX => onDrag s offsetX
  | .dragEnd => onDragEnd s
  | .clickLeft => clickPeek s (render s).left
  | .clickRight => clickPeek s (render s).right
  | .resize width => handleResize s width

/-- A finite sequence of events, handled in order. -/
def run (s : AppState) (es : List Event) : AppState :=
  es.foldl step s

/-- Number of `setPage` calls that `detectPaginationGesture` makes while one
event is handled in state `s`. -/
def dragSetPageCalls (s : AppState) : Event → Nat
  | .drag offsetX =>
      if (detectPaginationGesture s.currentPage s.hasPaginated offsetX).2.isSome then 1 else 0
  | _ => 0

/-- Number of `setPage` calls that `detectPaginationGesture` makes along a
sequence of events started in state `s`. -/
def countDragSetPage (s : AppState) : List Event → Nat
  | [] => 0
  | e :: es => dragSetPageCalls s e + countDragSetPage (step s e) es

/-! ## Visual states (`variants`, `variantsForSiblings`) -/

/-- The `transition` object of an animation target; `delay` is present only in
the `active` states. -/
structure Transition where
  delay : Option ℚ
  duration : ℚ
deriving DecidableEq, Repr

/-- An animation target; `opacity` is present only in the sibling states. -/
structure Target where
  x : ℚ
  opacity : Option ℚ
  transition : Transition
  scale : ℚ
deriving DecidableEq, Repr

/-- The keys of a variants object. -/
inductive VariantName where
  | enter
  | active
  | exit
deriving DecidableEq, Repr

/-- The object `variants`, resolved at a key with the `custom` value
`direction`; `active` is a plain object and ignores it. -/
def variants : VariantName → Int → Target
  | .enter, direction =>
      { x := if direction > 0 then xOffset else -xOffset
        opacity := none
        transition := { delay := none, duration := 0.2 }
        scale := 0.5 }
  | .active, _ =>
      { x := 0
        opacity := none
        transition := { delay := some 0, duration := 0.2 }
        scale := 1 }
  | .exit, direction =>
      { x := if direction > 0 then -xOffset else xOffset
        opacity := none
        transition := { delay := none, duration := 0.2 }
        scale := 0.5 }

/-- The object `variantsForSiblings`, resolved at a key with the `custom`
value `direction`. -/
def variantsForSiblings : VariantName → Int → Target
  | .enter, direction =>
      { x := if direction > 0 then xOffset2 else -xOffset2
        opacity := some 0
        transition := { delay := none, duration := 0.2 }
        scale := 0.5 }
  | .active, _ =>
      { x := 0
        opacity := some 1
        transition := { delay := some 0, duration := 0.2 }
        scale := 1 }
  | .exit, direction =>
      { x := if direction > 0 then xOffset2 else -xOffset2
        opacity := some 0
        transition := { delay := none, duration := 0.2 }
        scale := 0.5 }

/-! ## Event classes used in the statements -/

/-- Events of one drag gesture after its start: `onDrag` and `onDragEnd`. -/
def isDragOrDragEnd : Event → Bool
  | .drag _ => true
  | .dragEnd => true
  | _ => false

/-- Resize events. -/
def isResize : Event → Bool
  | .resize _ => true
  | _ => false

/-! ## Auxiliary lemmas -/

theorem pagesLength_eq : pagesLength = 4 := rfl

theorem threshold_eq : threshold = 100 := by
  norm_num [threshold, xOffset]

/-- JavaScript's double remainder by 4 is the floor remainder. -/
theorem tmod_tmod_four (p : Int) : Int.tmod (Int.tmod p 4 + 4) 4 = p % 4 := by
  have hdef : Int.tmod p 4 = p - 4 * Int.tdiv p 4 := Int.tmod_def p 4
  have hlt : Int.tmod p 4 < 4 := Int.tmod_lt_of_pos p (by decide)
  have hgt : -4 < Int.tmod p 4 := by
    cases p with
    | ofNat n =>
        have h0 : 0 ≤ Int.tmod (Int.ofNat n) 4 := Int.tmod_nonneg 4 (Int.ofNat_nonneg n)
        omega
    | negSucc n =>
        have h1 : Int.tmod (Int.negSucc n) 4 = -((Nat.succ n % 4 : Nat) : Int) := rfl
        omega
  rw [Int.tmod_eq_emod (by omega) (by decide)]
  omega

theorem wrap_zero_four (p : Int) : wrap 0 4 p = p % 4 := by
  simp only [wrap, sub_zero, add_zero]
  exact tmod_tmod_four p

theorem wrap_pages (p : Int) : wrap 0 pagesLength p = p % 4 := by
  rw [pagesLength_eq]
  exact wrap_zero_four p

/-- Closed form of `detectPaginationGesture`. -/
theorem detectPaginationGesture_eq (c : Int) (hp : Bool) (x : ℚ) :
    detectPaginationGesture c hp x =
      if hp then (true, none)
      else if x < -100 then (true, some ((c + 1) % 4, some 1))
      else if x > 100 then (true, some ((c - 1) % 4, some (-1)))
      else (false, none) := by
  unfold detectPaginationGesture
  rw [threshold_eq]
  cases hp with
  | true => simp
  | false =>
      simp only [Bool.false_eq_true, if_false]
      by_cases h1 : x < -100
      · have h0 : x < 0 := by linarith
        simp [h1, h0, wrap_pages]
      · by_cases h2 : x > 100
        · have h0 : ¬ x < 0 := by linarith
          simp [h1, h2, h0, wrap_pages]
        · simp [h1, h2]

/-- Closed form of the `onDrag` handler. -/
theorem onDrag_eq (s : AppState) (x : ℚ) :
    onDrag s x =
      if s.hasPaginated then s
      else if x < -100 then
        { s with currentPage := (s.currentPage + 1) % 4, direction := 1, hasPaginated := true }
      else if x > 100 then
        { s with currentPage := (s.currentPage - 1) % 4, direction := -1, hasPaginated := true }
      else s := by
  unfold onDrag
  rw [detectPaginationGesture_eq]
  cases s with
  | mk c d r hp =>
      cases hp with
      | true => simp
      | false =>
          by_cases h1 : x < -100
          · simp [h1, setCurrentPage, setPage, falsy]
          · by_cases h2 : x > 100
            · simp [h1, h2, setCurrentPage, setPage, falsy]
            · simp [h1, h2]

/-- The `onDrag` handler keeps the page index inside `[0, 4)`. -/
theorem onDrag_currentPage_valid (s : AppState) (x : ℚ)
    (h : 0 ≤ s.currentPage ∧ s.currentPage < 4) :
    0 ≤ (onDrag s x).currentPage ∧ (onDrag s x).currentPage < 4 := by
  rw [onDrag_eq]
  split_ifs
  · exact h
  · constructor
    · exact Int.emod_nonneg _ (by decide)
    · exact Int.emod_lt_of_pos _ (by decide)
  · constructor
    · exact Int.emod_nonneg _ (by decide)
    · exact Int.emod_lt_of_pos _ (by decide)
  · exact h

theorem leftPeekPage_eq (c : Int) (h0 : 0 ≤ c) (h4 : c < 4) :
    leftPeekPage c = (c - 1) % 4 := by
  unfold leftPeekPage
  rw [pagesLength_eq]
  split_ifs <;> omega

theorem rightPeekPage_eq (c : Int) (h0 : 0 ≤ c) (h4 : c < 4) :
    rightPeekPage c = (c + 1) % 4 := by
  unfold rightPeekPage
  rw [pagesLength_eq]
  split_ifs <;> omega

/-- A click on a peek slot of the rendered tree keeps the page index inside
`[0, 4)`. -/
theorem clickPeek_currentPage_valid (s : AppState)
    (h : 0 ≤ s.currentPage ∧ s.currentPage < 4) :
    (0 ≤ (clickPeek s (render s).left).currentPage ∧
        (clickPeek s (render s).left).currentPage < 4) ∧
      (0 ≤ (clickPeek s (render s).right).currentPage ∧
        (clickPeek s (render s).right).currentPage < 4) := by
  obtain ⟨h0, h4⟩ := h
  cases hr : s.shouldRenderSibling with
  | false => simp [render, hr, clickPeek, h0, h4]
  | true =>
      simp only [render, hr, if_true, clickPeek, changePage, setCurrentPage, setPage,
        leftPeekPage_eq _ h0 h4, rightPeekPage_eq _ h0 h4]
      refine ⟨⟨Int.emod_nonneg _ (by decide), Int.emod_lt_of_pos _ (by decide)⟩,
        ⟨Int.emod_nonneg _ (by decide), Int.emod_lt_of_pos _ (by decide)⟩⟩

/-- Every event handler keeps the page index inside `[0, 4)`. -/
theorem step_currentPage_valid (s : AppState) (e : Event)
    (h : 0 ≤ s.currentPage ∧ s.currentPage < 4) :
    0 ≤ (step s e).currentPage ∧ (step s e).currentPage < 4 := by
  cases e with
  | dragStart => exact h
  | drag x => exact onDrag_currentPage_valid s x h
  | dragEnd => exact h
  | clickLeft => exact (clickPeek_currentPage_valid s h).1
  | clickRight => exact (clickPeek_currentPage_valid s h).2
  | resize w => exact h

theorem run_currentPage_valid (es : List Event) (s : AppState)
    (h : 0 ≤ s.currentPage ∧ s.currentPage < 4) :
    0 ≤ (run s es).currentPage ∧ (run s es).currentPage < 4 := by
  induction es generalizing s with
  | nil => exact h
  | cons e es ih => exact ih (step s e) (step_currentPage_valid s e h)

/-- Once the flag is set, `onDrag` and `onDragEnd` leave the state as it is. -/
theorem step_of_hasPaginated (s : AppState) (e : Event) (hp : s.hasPaginated = true)
    (he : isDragOrDragEnd e = true) : step s e = s ∧ dragSetPageCalls s e = 0 := by
  cases e with
  | drag x =>
      constructor
      · show onDrag s x = s
        rw [onDrag_eq, hp]
        simp
      · simp [dragSetPageCalls, detectPaginationGesture_eq, hp]
  | dragEnd =>
      constructor
      · show onDragEnd s = s
        cases s
        simp_all [onDragEnd]
      · rfl
  | dragStart => simp [isDragOrDragEnd] at he
  | clickLeft => simp [isDragOrDragEnd] at he
  | clickRight => simp [isDragOrDragEnd] at he
  | resize w => simp [isDragOrDragEnd] at he

theorem run_of_hasPaginated (es : List Event) (s : AppState) (hp : s.hasPaginated = true)
    (hes : ∀ e ∈ es, isDragOrDragEnd e = true) :
    run s es = s ∧ countDragSetPage s es = 0 := by
  induction es with
  | nil => exact ⟨rfl, rfl⟩
  | cons e es ih =>
      have he := step_of_hasPaginated s e hp (hes e (List.mem_cons_self e es))
      have ih1 := ih (fun a ha => hes a (List.mem_cons_of_mem e ha))
      constructor
      · show run (step s e) es = s
        rw [he.1]
        exact ih1.1
      · show dragSetPageCalls s e + countDragSetPage (step s e) es = 0
        rw [he.1, he.2, ih1.2]

/-- A drag event that paginates, and a drag end, leave the flag set. -/
theorem hasPaginated_after (s : AppState) (e : Event)
    (he : e = Event.dragEnd ∨ dragSetPageCalls s e = 1) :
    (step s e).hasPaginated = true := by
  rcases he with he | he
  · subst he
    rfl
  · cases e with
    | drag x =>
        show (onDrag s x).hasPaginated = true
        simp only [dragSetPageCalls, detectPaginationGesture_eq] at he
        rw [onDrag_eq]
        cases hp : s.hasPaginated with
        | true => simp [hp]
        | false =>
            rw [hp] at he
            by_cases h1 : x < -100
            · simp [h1]
            · by_cases h2 : x > 100
              · simp [h1, h2]
              · simp [h1, h2] at he
    | dragEnd => rfl
    | dragStart => simp [dragSetPageCalls] at he
    | clickLeft => simp [dragSetPageCalls] at he
    | clickRight => simp [dragSetPageCalls] at he
    | resize w => simp [dragSetPageCalls] at he

theorem dragSetPageCalls_le_one (s : AppState) (e : Event) : dragSetPageCalls s e ≤ 1 := by
  cases e <;> simp [dragSetPageCalls]
  split_ifs <;> omega

theorem countDragSetPage_le_one (es : List Event) (s : AppState)
    (hes : ∀ e ∈ es, isDragOrDragEnd e = true) : countDragSetPage s es ≤ 1 := by
  induction es generalizing s with
  | nil => exact Nat.zero_le 1
  | cons e es ih =>
      have hrest : ∀ a ∈ es, isDragOrDragEnd a = true :=
        fun a ha => hes a (List.mem_cons_of_mem e ha)
      show dragSetPageCalls s e + countDragSetPage (step s e) es ≤ 1
      have hle := dragSetPageCalls_le_one s e
      by_cases h1 : dragSetPageCalls s e = 1
      · have hp := hasPaginated_after s e (Or.inr h1)
        rw [h1, (run_of_hasPaginated es (step s e) hp hrest).2]
      · have h0 : dragSetPageCalls s e = 0 := by omega
        rw [h0, Nat.zero_add]
        exact ih (step s e) hrest

theorem run_append (s : AppState) (as bs : List Event) :
    run s (as ++ bs) = run (run s as) bs := by
  simp [run, List.foldl_append]

/-- Every handler but `handleResize` leaves `shouldRenderSibling` as it is. -/
theorem step_shouldRenderSibling (s : AppState) (e : Event) (he : isResize e = false) :
    (step s e).shouldRenderSibling = s.shouldRenderSibling := by
  cases e with
  | dragStart => rfl
  | drag x =>
      show (onDrag s x).shouldRenderSibling = s.shouldRenderSibling
      rw [onDrag_eq]
      split_ifs <;> rfl
  | dragEnd => rfl
  | clickLeft =>
      show (clickPeek s (render s).left).shouldRenderSibling = s.shouldRenderSibling
      cases hr : s.shouldRenderSibling <;>
        simp [render, hr, clickPeek, changePage, setCurrentPage]
  | clickRight =>
      show (clickPeek s (render s).right).shouldRenderSibling = s.shouldRenderSibling
      cases hr : s.shouldRenderSibling <;>
        simp [render, hr, clickPeek, changePage, setCurrentPage]
  | resize w => simp [isResize] at he

theorem run_shouldRenderSibling (es : List Event) (s : AppState)
    (hes : ∀ e ∈ es, isResize e = false) :
    (run s es).shouldRenderSibling = s.shouldRenderSibling := by
  induction es generalizing s with
  | nil => rfl
  | cons e es ih =>
      show (run (step s e) es).shouldRenderSibling = s.shouldRenderSibling
      rw [ih (step s e) (fun a ha => hes a (List.mem_cons_of_mem e ha))]
      exact step_shouldRenderSibling s e (hes e (List.mem_cons_self e es))

/-- Unfolding of `roundBinary64Nat` at a known number of dropped bits. -/
theorem roundBinary64Nat_eq (m e : Nat) (he : Nat.size m - 53 = e) :
    roundBinary64Nat m =
      (if 2 * (m % 2 ^ e) > 2 ^ e ∨ (2 * (m % 2 ^ e) = 2 ^ e ∧ m / 2 ^ e % 2 = 1)
        then m / 2 ^ e + 1 else m / 2 ^ e) * 2 ^ e := by
  subst he
  rfl

theorem size_of_bounds (m k : Nat) (hlo : 2 ^ k ≤ m) (hhi : m < 2 ^ (k + 1)) :
    Nat.size m = k + 1 :=
  le_antisymm (Nat.size_le.mpr hhi) (Nat.lt_size.mpr hlo)

/-- Natural numbers up to `2 ^ 53` are binary64 numbers: rounding is exact. -/
theorem roundBinary64Nat_of_le (m : Nat) (h : m ≤ 2 ^ 53) : roundBinary64Nat m = m := by
  rcases Nat.lt_or_eq_of_le h with hlt | heq
  · have hs : Nat.size m ≤ 53 := Nat.size_le.mpr hlt
    rw [roundBinary64Nat_eq m 0 (Nat.sub_eq_zero_of_le hs)]
    simp [Nat.mod_one]
  · have hm : m = 9007199254740992 := by rw [heq]; norm_num
    subst hm
    have hs : Nat.size 9007199254740992 = 53 + 1 :=
      size_of_bounds _ 53 (by norm_num) (by norm_num)
    rw [roundBinary64Nat_eq _ 1 (by rw [hs])]
    norm_num

/-- Integers up to `2 ^ 53` in absolute value are binary64 numbers. -/
theorem roundBinary64_of_abs_le (n : Int) (h : |n| ≤ 2 ^ 53) : roundBinary64 n = n := by
  have hn : n.natAbs ≤ 2 ^ 53 := by
    have h1 : (n.natAbs : Int) ≤ 2 ^ 53 := by
      rw [← Int.abs_eq_natAbs]
      exact h
    exact_mod_cast h1
  unfold roundBinary64
  rw [roundBinary64Nat_of_le _ hn]
  exact Int.sign_mul_natAbs n

/-- The integer `2 ^ 53 + 1` lies midway between two binary64 numbers and
rounds to the even one, `2 ^ 53`. -/
theorem roundBinary64_two_pow_53_succ : roundBinary64 9007199254740993 = 9007199254740992 := by
  have hs : Nat.size 9007199254740993 = 53 + 1 :=
    size_of_bounds _ 53 (by norm_num) (by norm_num)
  have hr : roundBinary64Nat 9007199254740993 = 9007199254740992 := by
    rw [roundBinary64Nat_eq _ 1 (by rw [hs])]
    norm_num
  have hsign : Int.sign 9007199254740993 = 1 := Int.sign_eq_one_of_pos (by norm_num)
  have habs : Int.natAbs 9007199254740993 = 9007199254740993 := rfl
  unfold roundBinary64
  rw [habs, hr, hsign]
  norm_num

/-! ## Claims -/

/-- C1. In every state reached from the initial pagination state `(0, 0)` by a
finite sequence of drag-start, drag, drag-end, left-peek click, right-peek click
and resize events, `currentPage` is an integer with `0 ≤ currentPage < 4`, that
is, a valid index into `pages`. -/
theorem currentPage_valid_of_reachable (es : List Event) :
    initialState.currentPage = 0 ∧ initialState.direction = 0 ∧
      0 ≤ (run initialState es).currentPage ∧
      (run initialState es).currentPage < 4 ∧
      (run initialState es).currentPage.toNat < pages.length := by
  have h := run_currentPage_valid es initialState (by decide)
  refine ⟨rfl, rfl, h.1, h.2, ?_⟩
  have hl : pages.length = 4 := rfl
  rw [hl]
  omega

/-- C2. With the has-paginated flag unset, at every current page `c` (in
particular `0 ≤ c < 4`): for `offset.x < -100` the drag handler calls `setPage`
with page `(c + 1) mod 4` and direction `1`, for `offset.x > 100` it calls
`setPage` with page `(c - 1) mod 4` and direction `-1`, and the state pair
becomes that page and direction. -/
theorem onDrag_paginates (s : AppState) (x : ℚ) (hp : s.hasPaginated = false) :
    (x < -100 →
        (detectPaginationGesture s.currentPage s.hasPaginated x).2
            = some ((s.currentPage + 1) % 4, some 1) ∧
          (onDrag s x).currentPage = (s.currentPage + 1) % 4 ∧
          (onDrag s x).direction = 1) ∧
      (x > 100 →
        (detectPaginationGesture s.currentPage s.hasPaginated x).2
            = some ((s.currentPage - 1) % 4, some (-1)) ∧
          (onDrag s x).currentPage = (s.currentPage - 1) % 4 ∧
          (onDrag s x).direction = -1) := by
  rw [onDrag_eq, detectPaginationGesture_eq, hp]
  constructor
  · intro h
    simp [h]
  · intro h
    have h1 : ¬ x < -100 := by linarith
    simp [h, h1]

/-- C2, at the inputs named in the claim: `offset.x = -150` at page 2 gives
`(3, 1)`, and `offset.x = 150` at page 0 gives `(3, -1)`. -/
theorem onDrag_paginates_witness :
    ((onDrag ⟨2, 0, false, false⟩ (-150)).currentPage = 3 ∧
        (onDrag ⟨2, 0, false, false⟩ (-150)).direction = 1) ∧
      ((onDrag ⟨0, 0, false, false⟩ 150).currentPage = 3 ∧
        (onDrag ⟨0, 0, false, false⟩ 150).direction = -1) := by
  have a := ((onDrag_paginates ⟨2, 0, false, false⟩ (-150) rfl).1 (by norm_num)).2
  have b := ((onDrag_paginates ⟨0, 0, false, false⟩ 150 rfl).2 (by norm_num)).2
  exact ⟨⟨by simpa using a.1, a.2⟩, ⟨by simpa using b.1, b.2⟩⟩

/-- C3. At most one pagination per drag gesture: along a drag start followed by
any drag and drag-end events (no second drag start) the drag handler calls
`setPage` at most once, and every drag event that comes after a paginating drag
event or after a drag end makes no `setPage` call and leaves
`(currentPage, direction)` as it was. -/
theorem at_most_one_pagination_per_gesture (s : AppState) (es : List Event)
    (hes : ∀ e ∈ es, isDragOrDragEnd e = true) :
    countDragSetPage s (Event.dragStart :: es) ≤ 1 ∧
      (∀ (pre : List Event) (e : Event) (mid : List Event) (y : ℚ) (rest : List Event),
        es = pre ++ e :: (mid ++ Event.drag y :: rest) →
        (e = Event.dragEnd ∨ dragSetPageCalls (run s (Event.dragStart :: pre)) e = 1) →
          dragSetPageCalls (run s (Event.dragStart :: (pre ++ e :: mid))) (Event.drag y) = 0 ∧
            (step (run s (Event.dragStart :: (pre ++ e :: mid))) (Event.drag y)).currentPage
              = (run s (Event.dragStart :: (pre ++ e :: mid))).currentPage ∧
            (step (run s (Event.dragStart :: (pre ++ e :: mid))) (Event.drag y)).direction
              = (run s (Event.dragStart :: (pre ++ e :: mid))).direction) := by
  constructor
  · show dragSetPageCalls s Event.dragStart + countDragSetPage (step s Event.dragStart) es ≤ 1
    have h := countDragSetPage_le_one es (step s Event.dragStart) hes
    simpa [dragSetPageCalls] using h
  · intro pre e mid y rest hsplit he
    have hmid : ∀ a ∈ mid, isDragOrDragEnd a = true := by
      intro a ha
      apply hes a
      rw [hsplit]
      simp [ha]
    have hrun : run s (Event.dragStart :: (pre ++ e :: mid))
        = run (step (run s (Event.dragStart :: pre)) e) mid := by
      rw [← List.cons_append, run_append]
      rfl
    have hp := hasPaginated_after (run s (Event.dragStart :: pre)) e he
    rw [hrun, (run_of_hasPaginated mid _ hp hmid).1]
    have h := step_of_hasPaginated (step (run s (Event.dragStart :: pre)) e) (Event.drag y) hp rfl
    rw [h.1]
    exact ⟨h.2, rfl, rfl⟩

/-- C3, on the gesture: start, drag to `-150`, drag to `-160`, end, drag to
`300`; started on page 0, it makes at most one `setPage` call, and the drag to
`300`, which comes after the paginating drag to `-150`, makes none. -/
theorem at_most_one_pagination_per_gesture_witness :
    countDragSetPage initialState
        [Event.dragStart, Event.drag (-150), Event.drag (-160), Event.dragEnd, Event.drag 300]
      ≤ 1 ∧
      dragSetPageCalls
        (run initialState
          [Event.dragStart, Event.drag (-150), Event.drag (-160), Event.dragEnd])
        (Event.drag 300) = 0 := by
  have h := at_most_one_pagination_per_gesture initialState
    [Event.drag (-150), Event.drag (-160), Event.dragEnd, Event.drag 300]
    (by simp [isDragOrDragEnd])
  refine ⟨h.1, ?_⟩
  have h2 := h.2 [] (Event.drag (-150)) [Event.drag (-160), Event.dragEnd] 300 [] rfl
    (Or.inr (by
      simp only [dragSetPageCalls, detectPaginationGesture_eq]
      norm_num [run, step, onDragStart, initialState]))
  exact h2.1

/-- C4. In every state, a drag event whose `offset.x` lies strictly between
`-100` and `100` changes no page: the drag handler makes no `setPage` call and
`(currentPage, direction)` stays as it was. -/
theorem onDrag_below_threshold (s : AppState) (x : ℚ) (hlo : -100 < x) (hhi : x < 100) :
    (detectPaginationGesture s.currentPage s.hasPaginated x).2 = none ∧
      (onDrag s x).currentPage = s.currentPage ∧
      (onDrag s x).direction = s.direction := by
  have h1 : ¬ x < -100 := by linarith
  have h2 : ¬ x > 100 := by linarith
  rw [onDrag_eq, detectPaginationGesture_eq]
  cases s.hasPaginated <;> simp [h1, h2]

/-- C4, at `offset.x = 99` on page 2 with the flag unset. -/
theorem onDrag_below_threshold_witness :
    (detectPaginationGesture 2 false 99).2 = none ∧
      (onDrag ⟨2, 1, true, false⟩ 99).currentPage = 2 ∧
      (onDrag ⟨2, 1, true, false⟩ 99).direction = 1 :=
  onDrag_below_threshold ⟨2, 1, true, false⟩ 99 (by norm_num) (by norm_num)

/-- C5. At every current page `c` with `0 ≤ c < 4`, the right peek is given the
page `(c + 1)` wrapped into `[0, 4)` and the left peek `(c - 1)` wrapped into
`[0, 4)`; a click on a rendered peek sets the state pair to that page with the
peek's `buttonDirection`: `((c + 1) mod 4, 1)` for the right peek and
`((c - 1) mod 4, -1)` for the left one. -/
theorem peek_click_goes_to_neighbour (s : AppState)
    (h0 : 0 ≤ s.currentPage) (h4 : s.currentPage < 4) (hr : s.shouldRenderSibling = true) :
    rightPeekPage s.currentPage = wrap 0 4 (s.currentPage + 1) ∧
      leftPeekPage s.currentPage = wrap 0 4 (s.currentPage - 1) ∧
      (render s).right = some ⟨(s.currentPage + 1) % 4, s.direction, 1⟩ ∧
      (render s).left = some ⟨(s.currentPage - 1) % 4, s.direction, -1⟩ ∧
      (step s Event.clickRight).currentPage = (s.currentPage + 1) % 4 ∧
      (step s Event.clickRight).direction = 1 ∧
      (step s Event.clickLeft).currentPage = (s.currentPage - 1) % 4 ∧
      (step s Event.clickLeft).direction = -1 := by
  have hl := leftPeekPage_eq s.currentPage h0 h4
  have hrp := rightPeekPage_eq s.currentPage h0 h4
  refine ⟨?_, ?_, ?_, ?_, ?_, ?_, ?_, ?_⟩
  · rw [wrap_zero_four, hrp]
  · rw [wrap_zero_four, hl]
  · simp [render, hr, hrp]
  · simp [render, hr, hl]
  · simp [step, render, hr, hrp, clickPeek, changePage, setCurrentPage, setPage]
  · simp [step, render, hr, clickPeek, changePage, setCurrentPage, setPage, falsy]
  · simp [step, render, hr, hl, clickPeek, changePage, setCurrentPage, setPage]
  · simp [step, render, hr, clickPeek, changePage, setCurrentPage, setPage, falsy]

/-- C5, at the inputs named in the claim: the right peek at page 3 gives
`(0, 1)`, and the left peek at page 0 gives `(3, -1)`. -/
theorem peek_click_goes_to_neighbour_witness :
    ((step ⟨3, -1, true, false⟩ Event.clickRight).currentPage = 0 ∧
        (step ⟨3, -1, true, false⟩ Event.clickRight).direction = 1) ∧
      ((step ⟨0, 1, true, false⟩ Event.clickLeft).currentPage = 3 ∧
        (step ⟨0, 1, true, false⟩ Event.clickLeft).direction = -1) := by
  have a := peek_click_goes_to_neighbour ⟨3, -1, true, false⟩ (by decide) (by decide) rfl
  have b := peek_click_goes_to_neighbour ⟨0, 1, true, false⟩ (by decide) (by decide) rfl
  exact ⟨⟨by simpa using a.2.2.2.2.1, a.2.2.2.2.2.1⟩,
    ⟨by simpa using b.2.2.2.2.2.2.1, b.2.2.2.2.2.2.2⟩⟩

/-- C6. `setPage(newPage, newDirection)` replaces the state pair by
`(newPage, d)`: `d = newDirection` when `newDirection` is a non-zero integer,
and `d = newPage - currentPage` when `newDirection` is omitted or zero and that
difference is at most `2 ^ 53` in absolute value, so that binary64 holds it
exactly. `newPage` is stored as given, whatever integer it is. -/
theorem setPage_replaces_pair (s : AppState) (newPage newDirection : Int)
    (hd : newDirection ≠ 0) :
    (|newPage - s.currentPage| ≤ 2 ^ 53 →
        setPage s.currentPage newPage none = (newPage, newPage - s.currentPage) ∧
          setPage s.currentPage newPage (some 0) = (newPage, newPage - s.currentPage)) ∧
      setPage s.currentPage newPage (some newDirection) = (newPage, newDirection) ∧
      (∀ nd : Option Int,
        (setCurrentPage s (setPage s.currentPage newPage nd)).currentPage = newPage ∧
          (setCurrentPage s (setPage s.currentPage newPage nd)).direction
            = (setPage s.currentPage newPage nd).2) := by
  refine ⟨?_, ?_, ?_⟩
  · intro hsafe
    simp [setPage, falsy, binary64Sub, roundBinary64_of_abs_le _ hsafe]
  · simp [setPage, falsy, hd]
  · intro nd
    simp [setCurrentPage, setPage]

/-- C6, at state `(1, 1)` with `newPage = 7`, which is out of range, and
`newDirection = -1`. -/
theorem setPage_replaces_pair_witness :
    setPage 1 7 none = (7, 6) ∧ setPage 1 7 (some 0) = (7, 6) ∧
      setPage 1 7 (some (-1)) = (7, -1) := by
  have h := setPage_replaces_pair ⟨1, 1, false, false⟩ 7 (-1) (by decide)
  have h1 := h.1 (by norm_num)
  exact ⟨h1.1, h1.2, h.2.1⟩

/-- C6 does not hold for every integer `newPage`: at current page `1` and
`newPage = 2 ^ 53 + 2` with `newDirection` omitted, the stored direction is
`2 ^ 53`, the binary64 value of the difference, and not
`newPage - currentPage = 2 ^ 53 + 1`. -/
theorem setPage_direction_rounded :
    setPage 1 9007199254740994 none = (9007199254740994, 9007199254740992) ∧
      (setPage 1 9007199254740994 none).2 ≠ 9007199254740994 - 1 := by
  have h : setPage 1 9007199254740994 none = (9007199254740994, 9007199254740992) := by
    have hsub : (9007199254740994 : Int) - 1 = 9007199254740993 := by norm_num
    simp only [setPage, falsy, if_true, binary64Sub, hsub, roundBinary64_two_pow_53_succ]
  refine ⟨h, ?_⟩
  rw [h]
  norm_num

/-- C7. For every integer `p`, `wrap(0, 4, p)`, the wrapping the drag handler
applies, is the unique integer `r` with `0 ≤ r < 4` congruent to `p` modulo 4;
`wrap(0, 4, -1) = 3`, `wrap(0, 4, 4) = 0`, and `wrap(0, 4, p) = p` when
`0 ≤ p < 4`. -/
theorem wrap_unique_residue (p : Int) :
    wrap 0 pagesLength p = wrap 0 4 p ∧
      0 ≤ wrap 0 4 p ∧ wrap 0 4 p < 4 ∧ wrap 0 4 p ≡ p [ZMOD 4] ∧
      (∀ r : Int, 0 ≤ r → r < 4 → r ≡ p [ZMOD 4] → r = wrap 0 4 p) ∧
      wrap 0 4 (-1) = 3 ∧ wrap 0 4 4 = 0 ∧
      (0 ≤ p → p < 4 → wrap 0 4 p = p) := by
  refine ⟨rfl, ?_, ?_, ?_, ?_, by decide, by decide, ?_⟩
  · rw [wrap_zero_four]
    exact Int.emod_nonneg _ (by decide)
  · rw [wrap_zero_four]
    exact Int.emod_lt_of_pos _ (by decide)
  · rw [wrap_zero_four]
    exact Int.mod_modEq p 4
  · intro r h0 h4 hr
    rw [wrap_zero_four]
    have : r % 4 = p % 4 := hr
    omega
  · intro h0 h4
    rw [wrap_zero_four]
    omega

/-- C7, at `p = 2`, inside the range, where the wrapping is the identity. -/
theorem wrap_unique_residue_witness : wrap 0 4 2 = 2 :=
  (wrap_unique_residue 2).2.2.2.2.2.2.2 (by decide) (by decide)

/-- C8. For every integer `direction`, the primary slide's variants resolve to:
enter with horizontal offset `200` if `direction > 0` and `-200` otherwise,
scale `0.5`, duration `0.2`; exit with offset `-200` if `direction > 0` and
`200` otherwise, scale `0.5`, duration `0.2`; active with offset `0`, scale `1`,
duration `0.2` and delay `0`. The exit offset is the negation of the enter
offset for every direction, `0` included. -/
theorem variants_resolve (direction : Int) :
    (variants .enter direction).x = (if direction > 0 then 200 else -200) ∧
      (variants .enter direction).scale = 0.5 ∧
      (variants .enter direction).transition.duration = 0.2 ∧
      (variants .exit direction).x = (if direction > 0 then -200 else 200) ∧
      (variants .exit direction).scale = 0.5 ∧
      (variants .exit direction).transition.duration = 0.2 ∧
      (variants .active direction).x = 0 ∧
      (variants .active direction).scale = 1 ∧
      (variants .active direction).transition.duration = 0.2 ∧
      (variants .active direction).transition.delay = some 0 ∧
      (variants .exit direction).x = -(variants .enter direction).x ∧
      (variants .enter 0).x = -200 ∧ (variants .exit 0).x = 200 := by
  refine ⟨rfl, rfl, rfl, rfl, rfl, rfl, rfl, rfl, rfl, rfl, ?_, ?_, ?_⟩
  · simp only [variants, xOffset]
    split_ifs <;> norm_num
  · simp [variants, xOffset]
  · simp [variants, xOffset]

/-- C9. The sibling peek's `exit` state does not mirror the primary one: for
every integer `direction` its horizontal offset is `3` if `direction > 0` and
`-3` otherwise, the same as the sibling's `enter` offset, where the primary
`exit` offset has the opposite sign of the primary `enter` offset. At
`direction = 1` the sibling exit offset is `3`, not `-3`, and the primary exit
offset is `-200`. The scale, the transition and the opacities `0`, `1`, `0` are
as the claim says, and so are the `enter` and `active` offsets. -/
theorem variantsForSiblings_exit_same_as_enter (direction : Int) :
    (variantsForSiblings .exit 1).x = 3 ∧ (variants .exit 1).x = -200 ∧
      (variantsForSiblings .exit (-1)).x = -3 ∧ (variants .exit (-1)).x = 200 ∧
      (variantsForSiblings .exit direction).x = (if direction > 0 then 3 else -3) ∧
      (variantsForSiblings .exit direction).x = (variantsForSiblings .enter direction).x ∧
      (variantsForSiblings .exit direction).x ≠ (if direction > 0 then -3 else 3) ∧
      (variantsForSiblings .enter direction).x = (if direction > 0 then 3 else -3) ∧
      (variantsForSiblings .active direction).x = (variants .active direction).x ∧
      (∀ name : VariantName,
        (variantsForSiblings name direction).scale = (variants name direction).scale ∧
          (variantsForSiblings name direction).transition
            = (variants name direction).transition) ∧
      (variantsForSiblings .enter direction).opacity = some 0 ∧
      (variantsForSiblings .active direction).opacity = some 1 ∧
      (variantsForSiblings .exit direction).opacity = some 0 := by
  refine ⟨?_, ?_, ?_, ?_, rfl, rfl, ?_, rfl, rfl, ?_, rfl, rfl, rfl⟩
  · simp [variantsForSiblings, xOffset2]
  · simp [variants, xOffset]
  · simp [variantsForSiblings, xOffset2]
  · simp [variants, xOffset]
  · simp only [variantsForSiblings, xOffset2]
    split_ifs <;> norm_num
  · intro name
    cases name <;> exact ⟨rfl, rfl⟩

/-- C10. In every state and for every viewport width `w`, the resize handler
sets `shouldRenderSibling` to true exactly when `w > 500` (false at `500`) and
leaves `(currentPage, direction)` as it was; after any sequence of events whose
last resize observed width `w`, `shouldRenderSibling` is true exactly when
`w > 500`; and each peek is rendered exactly when `shouldRenderSibling` is
true. -/
theorem resize_sets_shouldRenderSibling (s : AppState) (w : ℚ) (pre post : List Event)
    (hpost : ∀ e ∈ post, isResize e = false) :
    ((step s (Event.resize w)).shouldRenderSibling = true ↔ w > 500) ∧
      (step s (Event.resize 500)).shouldRenderSibling = false ∧
      (step s (Event.resize w)).currentPage = s.currentPage ∧
      (step s (Event.resize w)).direction = s.direction ∧
      ((run s (pre ++ Event.resize w :: post)).shouldRenderSibling = true ↔ w > 500) ∧
      (∀ t : AppState, (render t).left.isSome = t.shouldRenderSibling ∧
        (render t).right.isSome = t.shouldRenderSibling) := by
  refine ⟨?_, ?_, rfl, rfl, ?_, ?_⟩
  · simp [step, handleResize]
  · simp [step, handleResize]
  · rw [run_append]
    show (run (step (run s pre) (Event.resize w)) post).shouldRenderSibling = true ↔ w > 500
    rw [run_shouldRenderSibling post _ hpost]
    simp [step, handleResize]
  · intro t
    cases ht : t.shouldRenderSibling <;> simp [render, ht]

/-- C10, on the sequence: resize to `400`, drag start, resize to `501`, drag to
`-150`, drag end; the peeks are rendered afterwards. -/
theorem resize_sets_shouldRenderSibling_witness :
    (run initialState
        [Event.resize 400, Event.dragStart, Event.resize 501, Event.drag (-150),
          Event.dragEnd]).shouldRenderSibling = true := by
  have h := (resize_sets_shouldRenderSibling initialState 501
    [Event.resize 400, Event.dragStart] [Event.drag (-150), Event.dragEnd]
    (by simp [isResize])).2.2.2.2.1
  exact h.2 (by norm_num)

end Carousel
